import Mathlib

/-!
# Verification of the docflu sync engine

Shallow embedding of the docflu CLI (Docusaurus ↔ Confluence sync) core:
the sync command logic (`lib/commands/sync.js`), the Confluence client's
hierarchy reconciliation (`lib/core/confluence-client.js`) and the reverse
transformer (`lib/core/html-to-markdown-parser.js`), together with the
Reference Index URL construction and the sync state store, which are
modelled from the specification where their source is not available.

Remote calls are modelled by passing the relevant environment (remote page
state, filesystem facts, download outcomes) explicitly; JavaScript falsy
checks on numbers/strings are modelled with `Option` plus the explicit
zero/empty cases where the code relies on them.
-/

namespace Docflu

/-! ## Reverse sync decision (`syncReverse`, lib/commands/sync.js)

For each `(filePath, pageInfo)` entry of the sync state, `syncReverse`
fetches the remote page, compares `pageInfo.version || 1` with
`confluencePage.version?.number || 1`, and rewrites the local file only
when the remote version is strictly greater and the file exists and the
run is not a dry run. -/

/-- Per-path entry of the persisted sync state, as read by `syncReverse`:
`confluenceId` may be absent, `version` may be absent. -/
structure PageInfo where
  confluenceId : Option String
  version : Option Nat
  deriving Repr, DecidableEq

/-- The remote page as returned by `getPageById(id, 'body.storage,version')`:
storage body and an optional version number. -/
structure RemotePage where
  storageValue : String
  versionNumber : Option Nat
  deriving Repr, DecidableEq

/-- JavaScript `x || 1` on an optional number: absent and `0` are falsy. -/
def jsOrOne : Option Nat → Nat
  | none => 1
  | some n => if n = 0 then 1 else n

/-- Outcome of `syncReverse`'s per-page iteration for one sync-state entry. -/
inductive ReverseAction where
  /-- `pageInfo.confluenceId` missing: `continue` without counting. -/
  | notTracked
  /-- `getPageById` returned null: counted as skipped. -/
  | pageMissing
  /-- `currentVersion <= lastSyncVersion`: counted as skipped, file untouched. -/
  | upToDate
  /-- local file absent: counted as skipped. -/
  | fileMissing
  /-- dry run: counted as processed and skipped, file untouched. -/
  | wouldUpdate
  /-- file rewritten and state record updated to the current remote version. -/
  | update
  deriving Repr, DecidableEq

/-- The branch structure of the `syncReverse` per-page loop body
(lib/commands/sync.js): which action is taken for one tracked entry, given
the remote lookup result, local file existence and the dry-run flag. -/
def reverseStep (pageInfo : PageInfo) (remote : Option RemotePage)
    (fileExists : Bool) (dryRun : Bool) : ReverseAction :=
  match pageInfo.confluenceId with
  | none => .notTracked
  | some _ =>
    match remote with
    | none => .pageMissing
    | some page =>
      let lastSyncVersion := jsOrOne pageInfo.version
      let currentVersion := jsOrOne page.versionNumber
      if currentVersion ≤ lastSyncVersion then .upToDate
      else if !fileExists then .fileMissing
      else if dryRun then .wouldUpdate
      else .update

/-- `syncReverse` writes the local Markdown file only on the `.update` branch. -/
def reverseWritesFile : ReverseAction → Bool
  | .update => true
  | _ => false

/-- On the `.update` branch `syncReverse` stores the current remote version
into the sync state (`setPageState` with `version: currentVersion`);
on every other branch the recorded version is left unchanged. -/
def reverseRecordedVersion (pageInfo : PageInfo) (remote : Option RemotePage)
    (fileExists : Bool) (dryRun : Bool) : Option Nat :=
  match reverseStep pageInfo remote fileExists dryRun, remote with
  | .update, some page => some (jsOrOne page.versionNumber)
  | _, _ => pageInfo.version

/-! ## Multi-document sync statistics (`syncDocs`, lib/commands/sync.js)

The per-document loop of `syncDocs` wraps each document in a
`try`/`catch`: an error increments only `failed` and the loop continues;
the summary of `processed/created/updated/skipped/failed` is produced
after the loop unconditionally. -/

/-- What happens to one document inside the `syncDocs` loop body. -/
inductive DocOutcome where
  /-- `needsSync` returned false: skipped without remote calls. -/
  | skippedNoChange
  /-- pushed successfully; `isNew` is `result.version?.number === 1`. -/
  | ok (isNew : Bool)
  /-- an error was raised while processing this document. -/
  | err
  deriving Repr, DecidableEq

/-- The running counters of `syncDocs` (its `stats` object). -/
structure Stats where
  processed : Nat
  created : Nat
  updated : Nat
  skipped : Nat
  failed : Nat
  deriving Repr, DecidableEq

/-- One iteration of the `syncDocs` document loop, as a transition on the
`stats` object.  The `catch` branch increments only `failed`. -/
def processDoc (st : Stats) : DocOutcome → Stats
  | .skippedNoChange => { st with skipped := st.skipped + 1 }
  | .ok true => { st with created := st.created + 1, processed := st.processed + 1 }
  | .ok false => { st with updated := st.updated + 1, processed := st.processed + 1 }
  | .err => { st with failed := st.failed + 1 }

/-- The whole `syncDocs` document loop: fold the per-document transition
over the document outcomes, starting from all-zero counters. -/
def syncDocsLoop (docs : List DocOutcome) : Stats :=
  docs.foldl processDoc ⟨0, 0, 0, 0, 0⟩

/-- `syncDocs` prints and returns the summary after the loop on every
non-aborted run, so the summary is total in the loop outcomes. -/
def syncDocsSummary (docs : List DocOutcome) : Option Stats :=
  some (syncDocsLoop docs)

/-- `true` on outcomes counted by `processed`. -/
def isOk : DocOutcome → Bool
  | .ok _ => true
  | _ => false

/-- `true` on the outcome counted by `created`. -/
def isCreatedDoc : DocOutcome → Bool
  | .ok true => true
  | _ => false

/-- `true` on the outcome counted by `updated`. -/
def isUpdatedDoc : DocOutcome → Bool
  | .ok false => true
  | _ => false

/-- `true` on the outcome counted by `skipped`. -/
def isSkippedDoc : DocOutcome → Bool
  | .skippedNoChange => true
  | _ => false

/-- `true` on the outcome counted by `failed`. -/
def isErrDoc : DocOutcome → Bool
  | .err => true
  | _ => false

/-! ## Attachment materialization (`downloadAndSaveAttachment`,
lib/core/html-to-markdown-parser.js)

An attachment referenced by a remote image is saved under
`images/<safeFilename>` beside the target file; the download is skipped
when the local file already exists and `stats.mtime >= attachmentDate`,
where `attachmentDate` is
`new Date(attachment.version?.when || attachment.metadata?.createdDate || 0)`. -/

/-- Attachment metadata from the Confluence API as used by
`downloadAndSaveAttachment`: title, `version.when` and
`metadata.createdDate` (timestamps in milliseconds). -/
structure AttachMeta where
  title : Option String
  versionWhen : Option Nat
  createdDate : Option Nat
  deriving Repr, DecidableEq

/-- Characters kept by `filename.replace(/[^a-zA-Z0-9.-]/g, '_')`. -/
def safeChar (c : Char) : Bool :=
  c.isAlphanum || c = '.' || c = '-'

/-- `filename.replace(/[^a-zA-Z0-9.-]/g, '_')`. -/
def safeFilename (s : String) : String :=
  String.mk (s.toList.map fun c => if safeChar c then c else '_')

/-- `new Date(attachment.version?.when || attachment.metadata?.createdDate || 0)`
as a timestamp, with absent fields falling through the `||` chain. -/
def attachmentDate (att : AttachMeta) : Nat :=
  (att.versionWhen.orElse fun _ => att.createdDate).getD 0

/-- Result of `downloadAndSaveAttachment` for one attachment reference. -/
inductive AttachOutcome where
  /-- no Confluence client available: returns null. -/
  | noClient
  /-- existing local file reused (download skipped). -/
  | reused (relativePath alt : String)
  /-- `getAttachmentDownloadUrl` returned null: returns null. -/
  | noUrl
  /-- attachment downloaded and written to the local path. -/
  | downloaded (relativePath alt : String)
  /-- the download or write raised: caught, returns null. -/
  | failed
  deriving Repr, DecidableEq

/-- `downloadAndSaveAttachment(attachment, filename, imagesDir)` with the
filesystem and network effects made explicit: `fileExists`/`mtime` describe
`imagesDir/<safeFilename>`, `downloadUrl` is what
`getAttachmentDownloadUrl` returns, and `downloadOk` tells whether the
download-and-write succeeds. -/
def downloadAndSaveAttachment (hasClient : Bool) (att : AttachMeta)
    (filename : String) (fileExists : Bool) (mtime : Nat)
    (downloadUrl : Option String) (downloadOk : Bool) : AttachOutcome :=
  if !hasClient then .noClient
  else
    let rel := "images/" ++ safeFilename filename
    let altText := att.title.getD filename
    if fileExists && decide (attachmentDate att ≤ mtime) then .reused rel altText
    else
      match downloadUrl with
      | none => .noUrl
      | some _ => if downloadOk then .downloaded rel altText else .failed

/-! ## Table reconstruction (`confluenceTables` rule,
lib/core/html-to-markdown-parser.js)

The turndown rule for `table` collects all `tr` rows; header cells are the
`th` cells of `rows[0]`.  If there are header cells, a header line and a
`---` separator line are emitted and the data loop starts at row 1;
otherwise the data loop starts at row 0 and no separator is emitted.
A data row is emitted only when it has at least one `td` cell.  Cell
contents are modelled as the already-converted Markdown strings. -/

/-- One `tr` of a table: its `th` cells and its `td` cells, each already
converted to Markdown and trimmed. -/
structure TableRow where
  th : List String
  td : List String
  deriving Repr, DecidableEq

/-- `'| ' + cells.join(' | ') + ' |\n'`. -/
def rowLine (cells : List String) : String :=
  "| " ++ String.intercalate " | " cells ++ " |\n"

/-- The separator line: one `---` per header cell. -/
def sepLine (headerCells : List String) : String :=
  "| " ++ String.intercalate " | " (headerCells.map fun _ => "---") ++ " |\n"

/-- The data-row loop of the `confluenceTables` rule: each row with at
least one `td` cell contributes one line. -/
def dataLines (rows : List TableRow) : List String :=
  rows.filterMap fun r => if r.td.isEmpty then none else some (rowLine r.td)

/-- The lines appended by the `confluenceTables` replacement (between the
leading and trailing newline): header line and separator when `rows[0]`
has `th` cells, then the data rows starting at index 1, or at index 0 when
there are no header cells. -/
def tableLines : List TableRow → List String
  | [] => []
  | r0 :: rest =>
    if r0.th.isEmpty then dataLines (r0 :: rest)
    else rowLine r0.th :: sepLine r0.th :: dataLines rest

/-- The full replacement string of the `confluenceTables` rule:
empty for a rowless table, otherwise `'\n' + lines + '\n'`. -/
def confluenceTables (rows : List TableRow) : String :=
  match rows with
  | [] => ""
  | _ => "\n" ++ String.join (tableLines rows) ++ "\n"

/-! ## Admonition macros (`preprocessConfluenceHtml` and the
`confluenceAdmonitions` rule, lib/core/html-to-markdown-parser.js)

`preprocessConfluenceHtml` rewrites a storage-format
`<ac:structured-macro ac:name="X">` for `X ∈ {note, info, warning}` into a
`<div class="confluence-X-macro">` holding a title div (when the title
parameter is present and non-empty) and a body div.  The
`confluenceAdmonitions` turndown rule then fires on divs whose class list
contains `confluence-information-macro`, `confluence-warning-macro` or
`confluence-note-macro`, and renders `:::type title\nbody\n:::`. -/

/-- The class `preprocessConfluenceHtml` puts on the div produced for an
admonition macro named `macroName`. -/
def preprocessAdmonitionClass (macroName : String) : String :=
  "confluence-" ++ macroName ++ "-macro"

/-- The filter of the `confluenceAdmonitions` rule: the div's class list
must contain one of the three hard-coded macro classes. -/
def admonitionFilter (classes : List String) : Bool :=
  classes.contains "confluence-information-macro" ||
  classes.contains "confluence-warning-macro" ||
  classes.contains "confluence-note-macro"

/-- The type chosen by the `confluenceAdmonitions` replacement:
`warning` and `note` by class, `info` as the default. -/
def admonitionType (classes : List String) : String :=
  if classes.contains "confluence-warning-macro" then "warning"
  else if classes.contains "confluence-note-macro" then "note"
  else "info"

/-- The replacement string of the `confluenceAdmonitions` rule, given the
extracted title (empty when the title div is absent) and the converted
body. -/
def admonitionReplacement (classes : List String) (title body : String) : String :=
  "\n:::" ++ admonitionType classes ++ (if title = "" then "" else " " ++ title) ++
    "\n" ++ body ++ "\n:::\n\n"

/-- Reverse transform of one storage-format admonition macro: preprocess
produces the div class for `macroName`; the `confluenceAdmonitions` rule
fires only when its filter accepts that class, in which case it emits the
`:::` admonition; otherwise the div falls through to generic conversion
and no admonition fence is produced (`none`). -/
def reverseAdmonition (macroName title body : String) : Option String :=
  let cls := preprocessAdmonitionClass macroName
  if admonitionFilter [cls] then some (admonitionReplacement [cls] title body)
  else none

/-! ## Diagram images (`mermaidDiagrams` and `confluenceImages` rules,
lib/core/html-to-markdown-parser.js)

Both rules filter `img` nodes.  Turndown consults rules in reverse order
of addition (`Rules.prototype.add` unshifts), so the later-added
`mermaidDiagrams` rule is checked first: an `img` whose `alt` contains
`mermaid-diagram` gets the fixed placeholder fence; any other `img` is
handled by `confluenceImages`. -/

/-- An `img` element as seen by the turndown rules. -/
structure ImgNode where
  alt : Option String
  src : Option String
  deriving Repr, DecidableEq

/-- Substring containment on strings (JavaScript `String.prototype.includes`). -/
def strContains (hay needle : String) : Bool :=
  (hay.toList.tails).any fun t => needle.toList.isPrefixOf t

/-- The `mermaidDiagrams` filter: an `IMG` whose `alt` attribute is present
and contains `mermaid-diagram`. -/
def isMermaidImage (img : ImgNode) : Bool :=
  match img.alt with
  | none => false
  | some a => strContains a "mermaid-diagram"

/-- The constant replacement of the `mermaidDiagrams` rule: a fenced
`mermaid` block stating that automatic reconstruction is not supported. -/
def mermaidPlaceholder : String :=
  "\n```mermaid\n// Original Mermaid diagram was here\n// Automatic conversion back to Mermaid code is not supported\n```\n\n"

/-- The `confluenceImages` replacement for a non-diagram `img`. -/
def confluenceImagesReplacement (img : ImgNode) : String :=
  let alt := img.alt.getD ""
  let src := img.src.getD ""
  if !(src.startsWith "http") && !(src.startsWith "data:") then
    "![" ++ alt ++ "](" ++ src ++ ")"
  else if strContains src "/download/attachments/" then
    let filename := (((src.splitOn "/").getLastD "").splitOn "?").headD ""
    "![" ++ alt ++ "](" ++ filename ++ ")"
  else
    "![" ++ alt ++ "](" ++ src ++ ")"

/-- Conversion of one `img` node: the later-added `mermaidDiagrams` rule
takes precedence, so a diagram-marked image becomes the placeholder fence
and every other image goes through `confluenceImages`. -/
def convertImage (img : ImgNode) : String :=
  if isMermaidImage img then mermaidPlaceholder
  else confluenceImagesReplacement img

/-! ## Hierarchy reconciliation (`findOrCreateParentPage`,
lib/core/confluence-client.js, driven by `syncDocs` step 8)

The remote space is modelled as a list of pages with numeric ids; the
client's lookups (`findPageByTitle` global in the space,
`getPageChildren`, `findPageByTitleAndParent`) and writes (`createPage`,
`updatePage` inside `createOrUpdatePage`) become pure functions on that
state, with a counter of `createPage` calls. -/

/-- A remote Confluence page: id, title, optional parent and version. -/
structure RPage where
  id : Nat
  title : String
  parentId : Option Nat
  version : Nat
  deriving Repr, DecidableEq

/-- The remote space: its pages, the id the next `createPage` call gets,
and how many `createPage` calls have been issued. -/
structure Remote where
  pages : List RPage
  nextId : Nat
  createCount : Nat
  deriving Repr, DecidableEq

/-- `findPageByTitle(title)`: space-wide search by title, first hit. -/
def findPageByTitle (r : Remote) (t : String) : Option RPage :=
  r.pages.find? fun p => p.title = t

/-- `getPageChildren(pageId)`: all pages whose parent is `pid`. -/
def getPageChildren (r : Remote) (pid : Nat) : List RPage :=
  r.pages.filter fun p => p.parentId = some pid

/-- `findPageByTitleAndParent(title, parentId)`: without a parent this
falls back to the space-wide search, otherwise it looks among the
parent's children. -/
def findPageByTitleAndParent (r : Remote) (t : String) (parent : Option Nat) :
    Option RPage :=
  match parent with
  | none => findPageByTitle r t
  | some pid => (getPageChildren r pid).find? fun p => p.title = t

/-- `createPage(title, content, parentId)`: a fresh page at version 1. -/
def createPage (r : Remote) (t : String) (parent : Option Nat) : RPage × Remote :=
  let pg : RPage := ⟨r.nextId, t, parent, 1⟩
  (pg, ⟨r.pages ++ [pg], r.nextId + 1, r.createCount + 1⟩)

/-- `updatePage(pageId, title, content, version)`: store the new version
on the page and return it. -/
def updatePage (r : Remote) (pid : Nat) (version : Nat) : Remote :=
  { r with pages := r.pages.map fun p => if p.id = pid then { p with version := version } else p }

/-- `createOrUpdatePage({title, content, parentId})`: update (at
`existing.version + 1`) when a page with this title exists anywhere in the
space, create otherwise. -/
def createOrUpdatePage (r : Remote) (t : String) (parent : Option Nat) :
    RPage × Remote :=
  match findPageByTitle r t with
  | some p =>
    let v := p.version + 1
    ({ p with version := v }, updatePage r p.id v)
  | none => createPage r t parent

/-- `\w` of the JavaScript regexes: ASCII letters, digits and underscore. -/
def wordChar (c : Char) : Bool :=
  c.isAlphanum || c = '_'

/-- `.replace(/\b\w/g, c => c.toUpperCase())` over a character list;
the Boolean argument records whether the previous character was a word
character (so the current one starts at a word boundary when it was not). -/
def titleCaseChars : Bool → List Char → List Char
  | _, [] => []
  | prevWord, c :: cs =>
    (if !prevWord && wordChar c then c.toUpper else c) :: titleCaseChars (wordChar c) cs

/-- `formatCategoryTitle(segment)`: hyphens to spaces, then capitalize at
word boundaries. -/
def formatCategoryTitle (s : String) : String :=
  String.mk (titleCaseChars false (s.toList.map fun c => if c = '-' then ' ' else c))

/-- `'a/b/c'.split('/')` over a character list, accumulating the current
segment. -/
def splitSlashChars (acc : List Char) : List Char → List String
  | [] => [String.mk acc.reverse]
  | c :: cs =>
    if c = '/' then String.mk acc.reverse :: splitSlashChars [] cs
    else splitSlashChars (c :: acc) cs

/-- `categoryPath.split('/').filter(Boolean)`. -/
def splitSegments (s : String) : List String :=
  (splitSlashChars [] s.toList).filter fun seg => seg ≠ ""

/-- The segment walk of `findOrCreateParentPage`: at each level look up
the formatted title under the current parent, create it (via
`createOrUpdatePage`) when absent, and descend into its id. -/
def walkSegments : List String → Option Nat → Remote → Option Nat × Remote
  | [], parent, r => (parent, r)
  | seg :: rest, parent, r =>
    let title := formatCategoryTitle seg
    match findPageByTitleAndParent r title parent with
    | some pg => walkSegments rest (some pg.id) r
    | none =>
      let (pg, r') := createOrUpdatePage r title parent
      walkSegments rest (some pg.id) r'

/-- `findOrCreateParentPage(categoryPath, rootParentId)`: empty category
returns the root parent unchanged, otherwise walk the segments. -/
def findOrCreateParentPage (r : Remote) (categoryPath : String)
    (rootParentId : Option Nat) : Option Nat × Remote :=
  if categoryPath = "" then (rootParentId, r)
  else walkSegments (splitSegments categoryPath) rootParentId r

/-- `[...new Set(xs)]`: deduplication keeping the first occurrence, as the
JavaScript `Set` iterator does. -/
def jsSetDedup (seen : List String) : List String → List String
  | [] => []
  | x :: xs =>
    if x ∈ seen then jsSetDedup seen xs
    else x :: jsSetDedup (x :: seen) xs

/-- Step 8 of `syncDocs`: for each category not yet in the hierarchy map,
call `findOrCreateParentPage` and record the resulting parent id. -/
def buildHierarchy (hmap : List (String × Option Nat)) (parentId : Option Nat) :
    List String → Remote → List (String × Option Nat) × Remote
  | [], r => (hmap, r)
  | c :: cs, r =>
    if (hmap.lookup c).isSome then buildHierarchy hmap parentId cs r
    else
      let (pid, r') := findOrCreateParentPage r c parentId
      buildHierarchy (hmap ++ [(c, pid)]) parentId cs r'

/-- The distinct categories of a document list, as computed by
`[...new Set(documents.map(d => d.category).filter(Boolean))]`. -/
def distinctCategories (cats : List (Option String)) : List String :=
  jsSetDedup [] (cats.filterMap fun c => match c with
    | none => none
    | some s => if s = "" then none else some s)

/-! ## Reference Index URL construction

`lib/core/reference-processor.js` is not among the available sources
(only its callers and the project context are), so the resolution result
and URL construction are modelled from the specification. -/

/-- A resolved reference target: the remote page id and title of the
sync-state record the link token resolved to. -/
structure RefTarget where
  pageId : String
  title : String
  deriving Repr, DecidableEq

/-- Splits an optional `#anchor` suffix off a link token: the part before
the first `#`, and the `#anchor` suffix itself (empty when there is
none), over a character list. -/
def splitAnchorChars (acc : List Char) : List Char → List Char × List Char
  | [] => (acc.reverse, [])
  | c :: cs =>
    if c = '#' then (acc.reverse, c :: cs)
    else splitAnchorChars (c :: acc) cs

/-- The path part and the verbatim `#anchor` suffix of a link token. -/
def splitAnchor (token : String) : String × String :=
  let (p, a) := splitAnchorChars [] token.toList
  (String.mk p, String.mk a)

/-- Modelled from the spec: URL-encoding of a page title for the modern
Confluence URL, observed as space-to-`+` encoding
(`Tutorial Intro` ↦ `Tutorial+Intro`). -/
def urlEncodeTitle (title : String) : String :=
  String.mk (title.toList.map fun c => if c = ' ' then '+' else c)

/-- Modelled from the spec: `reference-processor.js` is not under `src/`;
the spec fixes the rewritten URL of a resolved internal link to exactly
`{baseUrl}/wiki/spaces/{spaceKey}/pages/{pageId}/{urlEncodedTitle}{#anchor}`. -/
def convertedUrl (baseUrl spaceKey : String) (t : RefTarget) (anchor : String) :
    String :=
  baseUrl ++ "/wiki/spaces/" ++ spaceKey ++ "/pages/" ++ t.pageId ++ "/" ++
    urlEncodeTitle t.title ++ anchor

/-- Modelled from the spec: `reference-processor.js` is not under `src/`.
`resolve(linkToken)` over an already-normalized index: split off the
anchor, look the path up in the Reference Index, and on a hit produce the
fixed-format URL with the anchor suffix preserved verbatim; `none` is
NotFound (the caller leaves the link unmodified). -/
def resolveReference (index : List (String × RefTarget))
    (baseUrl spaceKey token : String) : Option String :=
  (index.lookup (splitAnchor token).1).map fun t =>
    convertedUrl baseUrl spaceKey t (splitAnchor token).2

/-! ## Sync State Store

`lib/core/state-manager.js` is not among the available sources (only its
callers are), so the per-path record upsert is modelled from the
specification of the Sync State Store: `recordPush(path, …)` is an upsert
that never decreases `remoteVersion`, over a ledger keyed by path. -/

/-- A persisted sync record for one path (the fields the claims need). -/
structure SyncRecord where
  remotePageId : String
  remoteVersion : Nat
  deriving Repr, DecidableEq

/-- The persisted ledger: an association list keyed by document path. -/
def SyncState := List (String × SyncRecord)

/-- Modelled from the spec: `state-manager.js` is not under `src/`; the
spec's `recordPush` is an upsert on the path-keyed ledger that never
decreases the recorded `remoteVersion`. -/
def recordPush : SyncState → String → SyncRecord → SyncState
  | [], p, r => [(p, r)]
  | (q, old) :: rest, p, r =>
    if q = p then
      (q, { r with remoteVersion := max old.remoteVersion r.remoteVersion }) :: rest
    else
      (q, old) :: recordPush rest p r

/-- The paths holding a record in the ledger. -/
def statePaths (st : SyncState) : List String :=
  st.map Prod.fst

/-- Record lookup by path. -/
def stateLookup : SyncState → String → Option SyncRecord
  | [], _ => none
  | (q, r) :: rest, p => if q = p then some r else stateLookup rest p

/-! ## `syncDocs` remote-call trace (lib/commands/sync.js)

To settle the dry-run frame claim the run is abstracted to the ordered
trace of remote mutation entry points it goes through: the hierarchy
phase (step 8) runs before the per-document loop (step 9), and the loop
body issues `createOrUpdatePage` only when `dryRun` is false. -/

/-- A document as seen by the `syncDocs` loop. -/
structure Doc where
  title : String
  category : Option String
  needsSync : Bool
  deriving Repr, DecidableEq

/-- The remote mutation entry points `syncDocs` can invoke. -/
inductive RemoteCall where
  /-- step 8: `findOrCreateParentPage(category, parentId)`. -/
  | findOrCreateParent (category : String)
  /-- step 9: `createOrUpdatePage({title, …})` for one document. -/
  | createOrUpdate (title : String)
  deriving Repr, DecidableEq

/-- The category loop of step 8, at the level of issued calls: the
`hierarchyMap.has(category)` guard skips categories already in the map
(whose keys are exactly the categories walked so far). -/
def hierarchyCallsGo (mapKeys : List String) : List String → List RemoteCall
  | [] => []
  | c :: cs =>
    if c ∈ mapKeys then hierarchyCallsGo mapKeys cs
    else RemoteCall.findOrCreateParent c :: hierarchyCallsGo (c :: mapKeys) cs

/-- The hierarchy phase of `syncDocs`: walk the deduplicated non-empty
categories with an initially empty hierarchy map. -/
def hierarchyCalls (docs : List Doc) : List RemoteCall :=
  hierarchyCallsGo [] (distinctCategories (docs.map Doc.category))

/-- The per-document loop of `syncDocs`: under `dryRun` every document is
previewed without remote calls; otherwise each document passing the
`needsSync` check gets a `createOrUpdatePage` call. -/
def docLoopCalls (dryRun : Bool) (docs : List Doc) : List RemoteCall :=
  if dryRun then []
  else docs.filterMap fun d =>
    if d.needsSync then some (RemoteCall.createOrUpdate d.title) else none

/-- The ordered remote-mutation trace of one `syncDocs` run: the hierarchy
phase first, then the document loop. -/
def syncDocsCalls (dryRun : Bool) (docs : List Doc) : List RemoteCall :=
  hierarchyCalls docs ++ docLoopCalls dryRun docs

/-! ## Helper lemmas -/

/-- Unfolding the `syncDocs` loop: every counter of the fold equals its
initial value plus the number of matching outcomes. -/
theorem foldl_processDoc_counts (docs : List DocOutcome) :
    ∀ st : Stats, docs.foldl processDoc st =
      ⟨st.processed + docs.countP isOk,
       st.created + docs.countP isCreatedDoc,
       st.updated + docs.countP isUpdatedDoc,
       st.skipped + docs.countP isSkippedDoc,
       st.failed + docs.countP isErrDoc⟩ := by
  induction docs with
  | nil => intro st; simp
  | cons o rest ih =>
    intro st
    rw [List.foldl_cons, ih]
    cases o with
    | skippedNoChange =>
      simp [processDoc, List.countP_cons, isOk, isCreatedDoc, isUpdatedDoc,
        isSkippedDoc, isErrDoc, Stats.mk.injEq]
      all_goals omega
    | err =>
      simp [processDoc, List.countP_cons, isOk, isCreatedDoc, isUpdatedDoc,
        isSkippedDoc, isErrDoc, Stats.mk.injEq]
      all_goals omega
    | ok isNew =>
      cases isNew <;>
        · simp [processDoc, List.countP_cons, isOk, isCreatedDoc, isUpdatedDoc,
            isSkippedDoc, isErrDoc, Stats.mk.injEq]
          all_goals omega

/-- A path is in the upserted ledger exactly when it is the written path
or was already present. -/
theorem mem_statePaths_recordPush (st : SyncState) (p : String) (r : SyncRecord)
    (x : String) :
    x ∈ statePaths (recordPush st p r) ↔ x = p ∨ x ∈ statePaths st := by
  induction st with
  | nil => simp [recordPush, statePaths]
  | cons hd rest ih =>
    obtain ⟨q, old⟩ := hd
    by_cases hq : q = p
    · subst hq
      simp [recordPush, statePaths]
    · simp only [recordPush, if_neg hq, statePaths, List.map_cons, List.mem_cons] at *
      rw [ih]
      tauto

/-- `recordPush` preserves key uniqueness of the ledger. -/
theorem nodup_statePaths_recordPush (st : SyncState) (p : String) (r : SyncRecord)
    (h : (statePaths st).Nodup) :
    (statePaths (recordPush st p r)).Nodup := by
  induction st with
  | nil => simp [recordPush, statePaths]
  | cons hd rest ih =>
    obtain ⟨q, old⟩ := hd
    simp only [statePaths, List.map_cons, List.nodup_cons] at h
    by_cases hq : q = p
    · subst hq
      simpa [recordPush, statePaths] using h
    · simp only [recordPush, if_neg hq, statePaths, List.map_cons, List.nodup_cons]
      refine ⟨?_, ih h.2⟩
      rw [show (recordPush rest p r).map Prod.fst = statePaths (recordPush rest p r) from rfl,
        mem_statePaths_recordPush]
      rintro (h1 | h2)
      · exact hq h1
      · exact h.1 h2

/-- After a `recordPush`, the record at the written path exists and its
version is at least the version recorded before. -/
theorem stateLookup_recordPush_mono (st : SyncState) (p : String) (r old : SyncRecord)
    (h : stateLookup st p = some old) :
    ∃ newRec, stateLookup (recordPush st p r) p = some newRec ∧
      old.remoteVersion ≤ newRec.remoteVersion := by
  induction st with
  | nil => simp [stateLookup] at h
  | cons hd rest ih =>
    obtain ⟨q, cur⟩ := hd
    by_cases hq : q = p
    · subst hq
      simp [stateLookup] at h
      subst h
      exact ⟨{ r with remoteVersion := max cur.remoteVersion r.remoteVersion },
        by simp [recordPush, stateLookup], le_max_left _ _⟩
    · simp only [stateLookup, if_neg hq] at h
      obtain ⟨newRec, h1, h2⟩ := ih h
      exact ⟨newRec, by simp [recordPush, if_neg hq, stateLookup, hq, h1], h2⟩

/-- `jsSetDedup` never returns an element of its `seen` accumulator. -/
theorem jsSetDedup_not_mem_seen (xs : List String) :
    ∀ seen, ∀ x ∈ jsSetDedup seen xs, x ∉ seen := by
  induction xs with
  | nil => intro seen x hx; simp [jsSetDedup] at hx
  | cons y ys ih =>
    intro seen x hx
    by_cases hy : y ∈ seen
    · rw [jsSetDedup, if_pos hy] at hx
      exact ih seen x hx
    · rw [jsSetDedup, if_neg hy] at hx
      rcases List.mem_cons.mp hx with h | h
      · subst h; exact hy
      · intro hxs
        exact ih (y :: seen) x h (List.mem_cons_of_mem _ hxs)

/-- The output of `jsSetDedup` has no duplicates. -/
theorem jsSetDedup_nodup (xs : List String) :
    ∀ seen, (jsSetDedup seen xs).Nodup := by
  induction xs with
  | nil => intro seen; simp [jsSetDedup]
  | cons y ys ih =>
    intro seen
    by_cases hy : y ∈ seen
    · rw [jsSetDedup, if_pos hy]; exact ih seen
    · rw [jsSetDedup, if_neg hy]
      refine List.nodup_cons.mpr ⟨?_, ih (y :: seen)⟩
      intro hmem
      exact jsSetDedup_not_mem_seen ys (y :: seen) y hmem (List.mem_cons_self y seen)

/-- Membership in the deduplicated list. -/
theorem mem_jsSetDedup (xs : List String) :
    ∀ seen x, x ∈ jsSetDedup seen xs ↔ x ∈ xs ∧ x ∉ seen := by
  induction xs with
  | nil => intro seen x; simp [jsSetDedup]
  | cons y ys ih =>
    intro seen x
    by_cases hy : y ∈ seen
    · rw [jsSetDedup, if_pos hy, ih]
      constructor
      · rintro ⟨h1, h2⟩
        exact ⟨List.mem_cons_of_mem _ h1, h2⟩
      · rintro ⟨h1, h2⟩
        rcases List.mem_cons.mp h1 with h | h
        · exact absurd (by rw [h]; exact hy) h2
        · exact ⟨h, h2⟩
    · rw [jsSetDedup, if_neg hy]
      constructor
      · intro hx
        rcases List.mem_cons.mp hx with h | h
        · subst h; exact ⟨List.mem_cons_self x ys, hy⟩
        · obtain ⟨h1, h2⟩ := (ih (y :: seen) x).mp h
          exact ⟨List.mem_cons_of_mem _ h1, fun hs => h2 (List.mem_cons_of_mem _ hs)⟩
      · rintro ⟨h1, h2⟩
        rcases List.mem_cons.mp h1 with h | h
        · subst h; exact List.mem_cons_self x _
        · by_cases hxy : x = y
          · subst hxy; exact List.mem_cons_self x _
          · refine List.mem_cons_of_mem _ ((ih (y :: seen) x).mpr ⟨h, ?_⟩)
            intro hs
            rcases List.mem_cons.mp hs with h' | h'
            · exact hxy h'
            · exact h2 h'

/-- On a duplicate-free category list none of whose elements is already a
map key, the step-8 loop issues one `findOrCreateParentPage` call per
category, in order. -/
theorem hierarchyCallsGo_eq_map (l : List String) :
    ∀ seen, l.Nodup → (∀ x ∈ l, x ∉ seen) →
      hierarchyCallsGo seen l = l.map RemoteCall.findOrCreateParent := by
  induction l with
  | nil => intro seen _ _; simp [hierarchyCallsGo]
  | cons c cs ih =>
    intro seen hnd hns
    have hc : c ∉ seen := hns c (List.mem_cons_self c cs)
    rw [hierarchyCallsGo, if_neg hc, List.map_cons]
    congr 1
    refine ih (c :: seen) (List.nodup_cons.mp hnd).2 ?_
    intro x hx
    simp only [List.mem_cons]
    rintro (h | h)
    · exact (List.nodup_cons.mp hnd).1 (h ▸ hx)
    · exact hns x (List.mem_cons_of_mem _ hx) h

/-! ## Claim theorems -/

/-- C1: for every internal link token that the Reference Index can
resolve, the rewritten output URL has exactly the shape
`{baseUrl}/wiki/spaces/{spaceKey}/pages/{pageId}/{urlEncodedTitle}`, and
any `#anchor` suffix present on the input token is preserved verbatim at
the end of the output URL. -/
theorem resolved_link_url_fixed_shape (index : List (String × RefTarget))
    (baseUrl spaceKey token url : String)
    (h : resolveReference index baseUrl spaceKey token = some url) :
    ∃ t : RefTarget, List.lookup (splitAnchor token).1 index = some t ∧
      url = baseUrl ++ "/wiki/spaces/" ++ spaceKey ++ "/pages/" ++ t.pageId ++
        "/" ++ urlEncodeTitle t.title ++ (splitAnchor token).2 ∧
      ∃ pre, url = pre ++ (splitAnchor token).2 := by
  rw [resolveReference] at h
  obtain ⟨t, ht, hurl⟩ := Option.map_eq_some'.mp h
  subst hurl
  exact ⟨t, ht, rfl,
    ⟨baseUrl ++ "/wiki/spaces/" ++ spaceKey ++ "/pages/" ++ t.pageId ++ "/" ++
      urlEncodeTitle t.title, rfl⟩⟩

/-- Witness for C1 at a concrete Reference Index, token and anchor. -/
theorem resolved_link_url_fixed_shape_witness :
    ∃ t : RefTarget,
      List.lookup (splitAnchor "docs/intro.md#setup").1
        [("docs/intro.md", (⟨"45514944", "Tutorial Intro"⟩ : RefTarget))] = some t ∧
      "https://ex.atlassian.net/wiki/spaces/CEX/pages/45514944/Tutorial+Intro#setup" =
        "https://ex.atlassian.net" ++ "/wiki/spaces/" ++ "CEX" ++ "/pages/" ++
          t.pageId ++ "/" ++ urlEncodeTitle t.title ++
          (splitAnchor "docs/intro.md#setup").2 ∧
      ∃ pre,
        "https://ex.atlassian.net/wiki/spaces/CEX/pages/45514944/Tutorial+Intro#setup" =
          pre ++ (splitAnchor "docs/intro.md#setup").2 :=
  resolved_link_url_fixed_shape
    [("docs/intro.md", (⟨"45514944", "Tutorial Intro"⟩ : RefTarget))]
    "https://ex.atlassian.net" "CEX" "docs/intro.md#setup"
    "https://ex.atlassian.net/wiki/spaces/CEX/pages/45514944/Tutorial+Intro#setup"
    (by decide)

/-- C2: during reverse sync, a tracked page whose remote lookup succeeds,
whose local file exists and outside dry-run mode has its local Markdown
file regenerated and rewritten exactly when the current remote version is
strictly greater than the recorded version; when it is less than or
equal, the page is skipped as up to date and the file is not written. -/
theorem reverse_sync_pull_iff_newer (info : PageInfo) (page : RemotePage)
    (cid : String) (hc : info.confluenceId = some cid) :
    (reverseWritesFile (reverseStep info (some page) true false) = true ↔
      jsOrOne info.version < jsOrOne page.versionNumber) ∧
    (jsOrOne page.versionNumber ≤ jsOrOne info.version →
      reverseStep info (some page) true false = ReverseAction.upToDate ∧
      reverseWritesFile (reverseStep info (some page) true false) = false) := by
  constructor
  · by_cases hv : jsOrOne page.versionNumber ≤ jsOrOne info.version
    · simp [reverseStep, hc, hv, reverseWritesFile]
    · simp [reverseStep, hc, hv, reverseWritesFile]
      omega
  · intro hle
    simp [reverseStep, hc, hle, reverseWritesFile]

/-- Witness for C2 at a concrete tracked page: recorded version 2, remote
version 5. -/
theorem reverse_sync_pull_iff_newer_witness :
    (reverseWritesFile
        (reverseStep ⟨some "123", some 2⟩ (some ⟨"<p>x</p>", some 5⟩) true false) = true ↔
      jsOrOne (some 2) < jsOrOne (some 5)) ∧
    (jsOrOne (some 5) ≤ jsOrOne (some 2) →
      reverseStep ⟨some "123", some 2⟩ (some ⟨"<p>x</p>", some 5⟩) true false =
        ReverseAction.upToDate ∧
      reverseWritesFile
        (reverseStep ⟨some "123", some 2⟩ (some ⟨"<p>x</p>", some 5⟩) true false) = false) :=
  reverse_sync_pull_iff_newer ⟨some "123", some 2⟩ ⟨"<p>x</p>", some 5⟩ "123" rfl

/-- C3: on the category paths `["a", "a/b", "a/b/c"]` the hierarchy phase
starting from an empty remote issues exactly 3 page-creation calls, one
per distinct prefix, and the pages created for `a` and `a/b` are reused
as the parents of the deeper paths (the created pages chain
`A ← B ← C`), with the hierarchy map holding one entry per path. -/
theorem hierarchy_three_distinct_creates :
    buildHierarchy [] none (distinctCategories [some "a", some "a/b", some "a/b/c"])
        ⟨[], 1, 0⟩ =
      ([("a", some 1), ("a/b", some 2), ("a/b/c", some 3)],
       { pages := [⟨1, "A", none, 1⟩, ⟨2, "B", some 1, 1⟩, ⟨3, "C", some 2, 1⟩],
         nextId := 4, createCount := 3 }) := by
  rfl

/-- C4: the sync state holds at most one record per path (key uniqueness
is preserved by every upsert), and an upsert never decreases the version
recorded for its path. -/
theorem sync_state_record_invariant (st : SyncState) (p : String) (r : SyncRecord)
    (hnd : (statePaths st).Nodup) :
    (statePaths (recordPush st p r)).Nodup ∧
    ∀ old : SyncRecord, stateLookup st p = some old →
      ∃ newRec : SyncRecord, stateLookup (recordPush st p r) p = some newRec ∧
        old.remoteVersion ≤ newRec.remoteVersion :=
  ⟨nodup_statePaths_recordPush st p r hnd,
   fun old h => stateLookup_recordPush_mono st p r old h⟩

/-- Witness for C4: a ledger holding version 5 for a path, upserted with
an incoming record carrying version 2. -/
theorem sync_state_record_invariant_witness :
    (statePaths (recordPush [("docs/a.md", (⟨"100", 5⟩ : SyncRecord))]
        "docs/a.md" ⟨"100", 2⟩)).Nodup ∧
    ∀ old : SyncRecord,
      stateLookup [("docs/a.md", (⟨"100", 5⟩ : SyncRecord))] "docs/a.md" = some old →
      ∃ newRec : SyncRecord,
        stateLookup (recordPush [("docs/a.md", (⟨"100", 5⟩ : SyncRecord))]
          "docs/a.md" ⟨"100", 2⟩) "docs/a.md" = some newRec ∧
        old.remoteVersion ≤ newRec.remoteVersion :=
  sync_state_record_invariant [("docs/a.md", (⟨"100", 5⟩ : SyncRecord))]
    "docs/a.md" ⟨"100", 2⟩ (by decide)

/-- C5: in the multi-document loop an error during one document
increments only the failed count, the remaining documents are still
processed (every counter of the final statistics equals the number of
matching outcomes over the whole document list), and the final summary
is always produced. -/
theorem doc_errors_isolated_summary (docs : List DocOutcome) :
    (syncDocsSummary docs).isSome = true ∧
    (∀ st : Stats, processDoc st DocOutcome.err = { st with failed := st.failed + 1 }) ∧
    syncDocsLoop docs =
      ⟨docs.countP isOk, docs.countP isCreatedDoc, docs.countP isUpdatedDoc,
       docs.countP isSkippedDoc, docs.countP isErrDoc⟩ := by
  refine ⟨rfl, fun st => rfl, ?_⟩
  rw [syncDocsLoop, foldl_processDoc_counts]
  simp

/-- C6 counterexample: with the local file's modification time exactly
equal to the attachment's version timestamp, the code reuses the local
file and skips the download although the file is not strictly newer, so
"skipped exactly when a same-named local file is newer" fails at the
boundary. -/
theorem attachment_reuse_boundary_counterexample :
    downloadAndSaveAttachment true ⟨some "shot.png", some 5, none⟩ "shot.png"
        true 5 (some "https://ex/download/shot.png") true =
      AttachOutcome.reused "images/shot.png" "shot.png" ∧ ¬ (5 > 5) := by
  decide

/-- C6 (amended): an attachment-style image reference is mapped to
`images/<safeFilename>` beside the target file; with a download URL
available and a succeeding download, the download is skipped (the local
file reused) exactly when a same-named local file exists whose
modification time is at least (not older than) the attachment's recorded
version timestamp, and otherwise the attachment is downloaded there. -/
theorem attachment_reuse_amended (att : AttachMeta) (fn u : String)
    (fe : Bool) (mt : Nat) :
    (downloadAndSaveAttachment true att fn fe mt (some u) true =
        AttachOutcome.reused ("images/" ++ safeFilename fn) (att.title.getD fn) ↔
      fe = true ∧ attachmentDate att ≤ mt) ∧
    (¬ (fe = true ∧ attachmentDate att ≤ mt) →
      downloadAndSaveAttachment true att fn fe mt (some u) true =
        AttachOutcome.downloaded ("images/" ++ safeFilename fn) (att.title.getD fn)) := by
  by_cases hfe : fe = true
  · subst hfe
    by_cases hle : attachmentDate att ≤ mt
    · simp [downloadAndSaveAttachment, hle]
    · simp [downloadAndSaveAttachment, hle]
  · simp only [Bool.not_eq_true] at hfe
    subst hfe
    simp [downloadAndSaveAttachment]

/-- Witness for C6 (amended): a stale local file (mtime 3, attachment
timestamp 10) gets the attachment downloaded to `images/`. -/
theorem attachment_reuse_amended_witness :
    downloadAndSaveAttachment true ⟨some "pic.png", some 10, none⟩ "pic.png"
        true 3 (some "https://ex/download/pic.png") true =
      AttachOutcome.downloaded ("images/" ++ safeFilename "pic.png")
        ((⟨some "pic.png", some 10, none⟩ : AttachMeta).title.getD "pic.png") :=
  (attachment_reuse_amended ⟨some "pic.png", some 10, none⟩ "pic.png"
    "https://ex/download/pic.png" true 3).2 (by decide)

/-- C7 counterexample: in a table whose first row has no header cells, a
later row without any `td` cell is dropped by the data loop, so not every
row of the table is emitted as a data row. -/
theorem table_headerless_rows_counterexample :
    TableRow.th ⟨[], ["x"]⟩ = [] ∧
    tableLines [⟨[], ["x"]⟩, ⟨["h"], []⟩] ≠
      ([⟨[], ["x"]⟩, ⟨["h"], []⟩] : List TableRow).map (fun r => rowLine r.td) := by
  decide

/-- C7 (amended): the header row is taken from the header cells of the
table's first row, followed by a separator row, with the data loop
starting at the second row; if the first row contains no header cells,
no separator row is emitted and every row of the table containing at
least one data cell is emitted as a data row (rows with no `td` cells
are omitted). -/
theorem table_header_and_data_rows (r0 : TableRow) (rest : List TableRow) :
    (r0.th ≠ [] →
      tableLines (r0 :: rest) = rowLine r0.th :: sepLine r0.th :: dataLines rest) ∧
    (r0.th = [] → tableLines (r0 :: rest) = dataLines (r0 :: rest)) := by
  constructor
  · intro h
    rw [tableLines, if_neg (by simpa using h)]
  · intro h
    rw [tableLines, if_pos (by simp [h])]

/-- Witness for C7 (amended) on a concrete table with headers `H1, H2`. -/
theorem table_header_and_data_rows_witness :
    tableLines [⟨["H1", "H2"], ["a"]⟩, ⟨[], ["x", "y"]⟩] =
      rowLine ["H1", "H2"] :: sepLine ["H1", "H2"] ::
        dataLines [⟨[], ["x", "y"]⟩] :=
  (table_header_and_data_rows ⟨["H1", "H2"], ["a"]⟩ [⟨[], ["x", "y"]⟩]).1 (by decide)

/-- C8 (code bug): the preprocessor rewrites a storage-format `info`
macro to a div of class `confluence-info-macro`, but the admonitions rule
only fires on `confluence-information-macro` (or the warning/note
classes), so the reverse transform of an info macro with title
"Note Title" produces no `:::info` admonition at all (`none` here means
the div falls through to generic conversion), while the same pipeline
does produce the expected fence for a `note` macro. -/
theorem info_macro_reverse_bug :
    reverseAdmonition "info" "Note Title" "Some body" = none ∧
    reverseAdmonition "note" "Note Title" "Some body" =
      some "\n:::note Note Title\nSome body\n:::\n\n" ∧
    preprocessAdmonitionClass "info" = "confluence-info-macro" ∧
    admonitionFilter ["confluence-info-macro"] = false := by
  decide

/-- C9: every image whose alt text carries the `mermaid-diagram` marker
is replaced by the fixed placeholder fence stating that automatic
reconstruction is not supported — a constant independent of the image, so
no diagram source is fabricated. -/
theorem mermaid_image_placeholder_fence (img : ImgNode)
    (h : isMermaidImage img = true) :
    convertImage img = mermaidPlaceholder ∧
    strContains mermaidPlaceholder "not supported" = true := by
  refine ⟨?_, by decide⟩
  rw [convertImage, if_pos h]

/-- Witness for C9 at a concrete rendered-diagram image. -/
theorem mermaid_image_placeholder_fence_witness :
    convertImage ⟨some "mermaid-diagram-1.svg",
        some "https://ex/wiki/download/attachments/1/d.svg"⟩ = mermaidPlaceholder ∧
    strContains mermaidPlaceholder "not supported" = true :=
  mermaid_image_placeholder_fence
    ⟨some "mermaid-diagram-1.svg", some "https://ex/wiki/download/attachments/1/d.svg"⟩
    (by decide)

/-- C10: with `dryRun = true` the `syncDocs` remote-mutation trace
contains no per-document `createOrUpdatePage` call, yet the
hierarchy-building step still runs before the per-document loop and
issues one `findOrCreateParentPage` call per distinct category — and such
a call does create remote container pages (creation count 1 on an empty
remote for category `a`). -/
theorem dry_run_hierarchy_still_runs (docs : List Doc) :
    syncDocsCalls true docs =
      (distinctCategories (docs.map Doc.category)).map RemoteCall.findOrCreateParent ∧
    (∀ t, RemoteCall.createOrUpdate t ∉ syncDocsCalls true docs) ∧
    (∀ c, RemoteCall.findOrCreateParent c ∈ syncDocsCalls true docs ↔
      c ∈ distinctCategories (docs.map Doc.category)) ∧
    (findOrCreateParentPage ⟨[], 1, 0⟩ "a" none).2.createCount = 1 := by
  have hloop : docLoopCalls true docs = [] := rfl
  have hmain : syncDocsCalls true docs =
      (distinctCategories (docs.map Doc.category)).map RemoteCall.findOrCreateParent := by
    rw [syncDocsCalls, hloop, List.append_nil, hierarchyCalls]
    exact hierarchyCallsGo_eq_map _ [] (jsSetDedup_nodup _ [])
      (fun x _ hx => (List.not_mem_nil x) hx)
  refine ⟨hmain, ?_, ?_, rfl⟩
  · intro t ht
    rw [hmain] at ht
    obtain ⟨a, _, ha⟩ := List.mem_map.mp ht
    exact RemoteCall.noConfusion ha
  · intro c
    rw [hmain]
    constructor
    · intro hc
      obtain ⟨a, ha, haeq⟩ := List.mem_map.mp hc
      obtain rfl : a = c := by
        injection haeq
      exact ha
    · intro hc
      exact List.mem_map.mpr ⟨c, hc, rfl⟩

end Docflu
